import Mathlib

/-!
Verification of the duckdb-tileserver tile-generation and caching pipeline.

The definitions below are a shallow embedding of the Go sources:
 * `internal/cache/tilecache.go` — the `TileCache` type and its operations,
   layered over the semantics of `hashicorp/golang-lru/v2` (the bounded LRU
   it wraps: `Add` on a fresh key appends at the most-recently-used end and
   evicts the least-recently-used entry once the size bound is exceeded,
   invoking the eviction callback on the evicted entry; `Add` on a key that
   is already present updates the entry in place and moves it to the
   most-recently-used end without invoking the eviction callback; `Get`
   promotes the entry; `Remove` and `Purge` invoke the callback for each
   removed entry; `Keys` lists keys from oldest to newest).
 * `internal/service` — `tileCacheMiddleware`, `handleTile`, and the error
   mapping of the router.
 * `internal/data/tiles.go` — `queryLayerMetadata`, `isTableIncluded`,
   `GenerateTile`.

Byte payloads are modelled as `List Nat`; the Go `context.Context` threaded
through the cache functions is modelled by `GoContext`. Counters are `Int`
(the Go code uses `atomic.Int64`; no claim depends on 64-bit overflow).
-/

/-- A tile payload: the bytes of an MVT blob. -/
abbrev Payload := List Nat

/-- Model of Go's `context.Context` as far as the embedded code consumes it:
the only observable the cache or query layer could read is cancellation. -/
structure GoContext where
  cancelled : Bool
deriving Repr, DecidableEq

/-- Go's `strings.HasPrefix s pfx`, stated on the character lists of the
strings (for valid UTF-8 data, byte-prefix and character-prefix coincide). -/
def goHasPfx (s pfx : String) : Bool :=
  pfx.data.isPrefixOf s.data

/-- Go's `strings.ToLower`, stated as the character-wise lowering of the
string's character list. -/
def goToLower (s : String) : String :=
  String.mk (s.data.map Char.toLower)

/-- State of `TileCache` (tilecache.go). `entries` is the LRU map of the
wrapped `lru.Cache[string, []byte]`, ordered oldest-first (the eviction end
is the head, the most-recently-used end is the last element). -/
structure TileCache where
  entries : List (String × Payload)
  enabled : Bool
  maxItems : Nat
  maxMemoryMB : Int
  hits : Int
  misses : Int
  evictions : Int
  currentSize : Int
  currentBytes : Int
deriving Repr, DecidableEq

/-- Whether the LRU map contains a key. -/
def lruContains (es : List (String × Payload)) (k : String) : Bool :=
  es.any (fun e => e.1 == k)

/-- Key lookup in the LRU map. -/
def lruLookup (es : List (String × Payload)) (k : String) : Option Payload :=
  match es.find? (fun e => e.1 == k) with
  | some e => some e.2
  | none => none

/-- Semantics of `lru.Cache.Add` in golang-lru v2: on an existing key, update the entry in
place and move it to the most-recently-used end (no eviction callback);
on a fresh key, append it and, if the size bound is now exceeded, evict the
oldest entry, which is reported in the second component so that the
caller's eviction callback can run on it. -/
def lruAdd (maxItems : Nat) (es : List (String × Payload)) (k : String) (v : Payload) :
    List (String × Payload) × Option (String × Payload) :=
  if lruContains es k then
    (es.filter (fun e => !(e.1 == k)) ++ [(k, v)], none)
  else
    let es2 := es ++ [(k, v)]
    if maxItems < es2.length then
      match es2 with
      | [] => ([], none)
      | old :: rest => (rest, some old)
    else (es2, none)

/-- Semantics of `lru.Cache.Get` in golang-lru v2: a hit promotes the entry to the
most-recently-used end. -/
def lruGet (es : List (String × Payload)) (k : String) :
    Option Payload × List (String × Payload) :=
  match lruLookup es k with
  | some v => (some v, es.filter (fun e => !(e.1 == k)) ++ [(k, v)])
  | none => (none, es)

/-- Model of `NewTileCache(maxItems, maxMemoryMB)`: errors (returns `none`) unless
`maxItems` is positive; otherwise an enabled cache with zeroed counters. -/
def NewTileCache (maxItems : Int) (maxMemoryMB : Int) : Option TileCache :=
  if maxItems ≤ 0 then none
  else some
    { entries := []
      enabled := true
      maxItems := maxItems.toNat
      maxMemoryMB := maxMemoryMB
      hits := 0
      misses := 0
      evictions := 0
      currentSize := 0
      currentBytes := 0 }

/-- Model of `NewDisabledCache()`: a cache that always misses. -/
def NewDisabledCache : TileCache :=
  { entries := []
    enabled := false
    maxItems := 0
    maxMemoryMB := 0
    hits := 0
    misses := 0
    evictions := 0
    currentSize := 0
    currentBytes := 0 }

/-- Length of a payload as an `Int` (Go: `int64(len(data))`). -/
def payloadBytes (v : Payload) : Int := (v.length : Int)

/-- Model of `TileCache.onEvict`: the eviction callback increments `evictions` and
decrements `currentSize` and `currentBytes` by the evicted payload. -/
def TileCache.onEvictApply (tc : TileCache) (ev : Option (String × Payload)) : TileCache :=
  match ev with
  | none => tc
  | some e =>
    { tc with
      evictions := tc.evictions + 1
      currentSize := tc.currentSize - 1
      currentBytes := tc.currentBytes - payloadBytes e.2 }

/-- Model of `TileCache.Set(ctx, key, data)`: a no-op when the cache is disabled or
the payload is empty (`if !tc.enabled || len(data) == 0 { return nil }`);
otherwise copies the buffer, `cache.Add`s it (which may fire the eviction
callback) and adds the payload length and one item to the counters. The
memory-limit branch of the Go source only logs and is state-free, and `ctx`
is never consulted. -/
def TileCache.Set (tc : TileCache) (ctx : GoContext) (key : String) (data : Payload) :
    TileCache :=
  if !tc.enabled || data.length == 0 then tc
  else
    let r := lruAdd tc.maxItems tc.entries key data
    let tc1 := TileCache.onEvictApply tc r.2
    { tc1 with
      entries := r.1
      currentBytes := tc1.currentBytes + payloadBytes data
      currentSize := tc1.currentSize + 1 }

/-- Model of `TileCache.Get(ctx, key)`: when disabled, always a miss without touching
counters; otherwise a hit bumps `hits` (and the LRU recency), a miss bumps
`misses`. Returns `(payload-if-hit, new state)`. `ctx` is never consulted. -/
def TileCache.Get (tc : TileCache) (ctx : GoContext) (key : String) :
    Option Payload × TileCache :=
  if !tc.enabled then (none, tc)
  else
    match lruGet tc.entries key with
    | (some v, es) => (some v, { tc with entries := es, hits := tc.hits + 1 })
    | (none, _) => (none, { tc with misses := tc.misses + 1 })

/-- Model of `TileCache.Clear()`: `Purge` fires the eviction callback for every entry
(incrementing `evictions` per entry) and then `currentSize`/`currentBytes`
are stored to zero. -/
def TileCache.Clear (tc : TileCache) : TileCache :=
  if !tc.enabled then tc
  else
    { tc with
      entries := []
      evictions := tc.evictions + tc.entries.length
      currentSize := 0
      currentBytes := 0 }

/-- Sum of the stored payload lengths. -/
def entriesBytes (es : List (String × Payload)) : Int :=
  (es.map (fun e => payloadBytes e.2)).sum

/-- Model of `TileCache.ClearLayer(layerName)`: walks the key snapshot and `Remove`s
every key with prefix `layerName ++ ":"`; each removal fires the eviction
callback. Returns the number of removed entries and the new state. -/
def TileCache.ClearLayer (tc : TileCache) (layerName : String) : Nat × TileCache :=
  if !tc.enabled then (0, tc)
  else
    let pfx := layerName ++ ":"
    let removedEntries := tc.entries.filter (fun e => goHasPfx e.1 pfx)
    let kept := tc.entries.filter (fun e => !(goHasPfx e.1 pfx))
    (removedEntries.length,
     { tc with
       entries := kept
       evictions := tc.evictions + removedEntries.length
       currentSize := tc.currentSize - removedEntries.length
       currentBytes := tc.currentBytes - entriesBytes removedEntries })

/-- One cache operation, as issued by the service layer. -/
inductive CacheOp where
  | set (ctx : GoContext) (key : String) (data : Payload)
  | get (ctx : GoContext) (key : String)
  | clear
  | clearLayer (layerName : String)
deriving Repr, DecidableEq

/-- Apply one operation to the cache state. -/
def applyOp (tc : TileCache) (op : CacheOp) : TileCache :=
  match op with
  | .set ctx k v => tc.Set ctx k v
  | .get ctx k => (tc.Get ctx k).2
  | .clear => tc.Clear
  | .clearLayer l => (tc.ClearLayer l).2

/-- Apply a sequence of operations in order. -/
def applyOps (tc : TileCache) (ops : List CacheOp) : TileCache :=
  ops.foldl applyOp tc

/-- The counter coherence property of the spec: `currentBytes` equals the sum
of the stored payload lengths and `currentSize` equals the number of stored
entries. -/
def cacheConsistent (tc : TileCache) : Prop :=
  tc.currentBytes = entriesBytes tc.entries ∧
  tc.currentSize = (tc.entries.length : Int)

instance (tc : TileCache) : Decidable (cacheConsistent tc) := by
  unfold cacheConsistent; infer_instance

/-- A convenient concrete enabled cache (`NewTileCache 10 0` always succeeds). -/
def tcFresh : TileCache := (NewTileCache 10 0).getD NewDisabledCache

/-! ## The tile-cache middleware (`internal/service/tile_cache.go`) -/

/-- The cache key rendered by `tileCacheMiddleware`:
`fmt.Sprintf("%s:%s:%s:%s", layer, z, x, y)` on the raw path segments. -/
def tileCacheKey (layer z x y : String) : String :=
  layer ++ ":" ++ z ++ ":" ++ x ++ ":" ++ y

/-- Outcome of the wrapped handler as observed through `responseCapturer`:
either a recorded status code and captured body, or a non-nil `*appError`
carrying its status code (in which case nothing is cached). -/
inductive HandlerResult where
  | ok (status : Nat) (body : Payload)
  | err (status : Nat)
deriving Repr, DecidableEq

/-- A tile response as the client sees it: status, body, and the `X-Cache`
header (absent when the cache middleware is pass-through). -/
structure TileHttpResponse where
  status : Nat
  body : Payload
  xCache : Option String
deriving Repr, DecidableEq

/-- Model of `Service.tileCacheMiddleware`: pass-through when the cache is disabled;
otherwise try `Get` on the rendered key — a hit answers 204 (empty payload)
or 200 with `X-Cache: HIT`; a miss sets `X-Cache: MISS`, runs the handler
through a recorder, and stores the captured body on status 200 (or an empty
payload on status 204) with `cache.Set` launched on a goroutine (sequenced
here after the response; `Set` ignores its context, so the pending fill is
unaffected by request cancellation). -/
def tileCacheMiddleware (tc : TileCache) (ctx : GoContext) (layer z x y : String)
    (next : Unit → HandlerResult) : TileHttpResponse × TileCache :=
  if !tc.enabled then
    match next () with
    | .ok s b => ({ status := s, body := b, xCache := none }, tc)
    | .err s => ({ status := s, body := [], xCache := none }, tc)
  else
    let key := tileCacheKey layer z x y
    match tc.Get ctx key with
    | (some cachedTile, tc1) =>
      if cachedTile.length == 0 then
        ({ status := 204, body := [], xCache := some "HIT" }, tc1)
      else
        ({ status := 200, body := cachedTile, xCache := some "HIT" }, tc1)
    | (none, tc1) =>
      match next () with
      | .ok s b =>
        if s == 200 then
          ({ status := 200, body := b, xCache := some "MISS" }, tc1.Set ctx key b)
        else if s == 204 then
          ({ status := 204, body := [], xCache := some "MISS" }, tc1.Set ctx key [])
        else
          ({ status := s, body := b, xCache := some "MISS" }, tc1)
      | .err s => ({ status := s, body := [], xCache := some "MISS" }, tc1)

/-! ## Layer catalog and tile generation (`internal/data/tiles.go`) -/

/-- The observable behaviour of the DuckDB store for one catalog instance:
 * `geomColQuery name`: the `duckdb_columns` lookup of the first
   `GEOMETRY` column of table `name` — `.error ()` is a database error,
   `.ok none` is `sql.ErrNoRows`, `.ok (some g)` the column name;
 * `sampleX name`: the `ST_X(ST_Centroid(...)) ... LIMIT 1` sample —
   `none` when the query errors or scans an invalid value;
 * `propCols name`: the non-geometry columns with their declared types;
 * `tileScan name z x y`: the `ST_AsMVT` query — `.error ()` a query
   error, `.ok none` a NULL result, `.ok (some bytes)` the raw blob. -/
structure StoreOracle where
  geomColQuery : String → Except Unit (Option String)
  sampleX : String → Option ℚ
  propCols : String → List (String × String)
  tileScan : String → Int → Int → Int → Except Unit (Option Payload)

/-- The `Layer` record fields used by tile generation (tiles.go). -/
structure Layer where
  Name : String
  Table : String
  GeometryColumn : String
  SourceSrid : Int
  Properties : List String
  PropertyTypes : List (String × String)
deriving Repr, DecidableEq

/-- Model of `isTableIncluded` (tiles.go): the table name is looked up verbatim in
the include and exclude sets (which hold the lower-cased configuration
entries). -/
def isTableIncluded (tIncludes tExcludes : List String) (tableName : String) : Bool :=
  if 0 < tIncludes.length && !(tIncludes.contains tableName) then false
  else if 0 < tExcludes.length && tExcludes.contains tableName then false
  else true

/-- Model of `CatalogDB.SetIncludeExclude` (src/internal/data/catalog_test.go,
lines 738-752): each entry of both configuration lists is lower-cased
(`strings.ToLower`) into the `tableIncludes`/`tableExcludes` sets; the Go
maps keyed by lower-cased name are modelled as lists of the lower-cased
entries. -/
def SetIncludeExclude (includeList excludeList : List String) :
    List String × List String :=
  (includeList.map goToLower, excludeList.map goToLower)

/-- Fields of `Table` read by the catalog listing filter: the schema and the
table id. -/
structure GoTable where
  Schema : String
  ID : String
deriving Repr, DecidableEq

/-- Model of `isMatchSchemaTable` (src/internal/data/catalog_test.go, lines
951-961): the table's `Schema`, lower-cased, is looked up in the entry set,
then its `ID`, lower-cased. -/
def isMatchSchemaTable (tbl : GoTable) (list : List String) : Bool :=
  list.contains (goToLower tbl.Schema) || list.contains (goToLower tbl.ID)

/-- Model of `CatalogDB.isIncluded` (src/internal/data/catalog_test.go,
lines 938-949): included unless a non-empty include set fails to match the
table, and excluded exactly when a non-empty exclude set matches it;
visible iff included and not excluded. -/
def isIncluded (tIncludes tExcludes : List String) (tbl : GoTable) : Bool :=
  (if 0 < tIncludes.length then isMatchSchemaTable tbl tIncludes else true)
  && !(if 0 < tExcludes.length then isMatchSchemaTable tbl tExcludes else false)

/-- The errors produced on the layer-resolution and tile-generation path,
together with their `Error()` rendering (see `errMessage`). -/
inductive CatalogErr where
  | layerNotFound (name : String)
  | layerNotIncluded (name : String)
  | queryError (name : String)
  | tileGenError
deriving Repr, DecidableEq

/-- The `err.Error()` string of each error as formatted in tiles.go
(`fmt.Errorf`); `handleTile` compares against the `layerNotFound` rendering
only. -/
def errMessage : CatalogErr → String
  | .layerNotFound n => "layer not found: " ++ n
  | .layerNotIncluded n => "layer not included: " ++ n
  | .queryError n => "error querying layer " ++ n
  | .tileGenError => "error generating tile"

/-- Model of `queryLayerMetadata` (tiles.go): look up the geometry column
(`ErrNoRows` → "layer not found", other errors → query error), then reject
tables filtered by `isTableIncluded` ("layer not included"), then infer the
source SRID from one sampled centroid X (|X| > 360 → 3857, otherwise 4326,
defaulting to 4326 when the sample fails), and collect the property
columns. `GetLayerByName` adds a read-through memo of successful results,
which does not change the value returned for a fixed oracle. -/
def queryLayerMetadata (st : StoreOracle) (tIncludes tExcludes : List String)
    (name : String) : Except CatalogErr Layer :=
  match st.geomColQuery name with
  | .error _ => .error (.queryError name)
  | .ok none => .error (.layerNotFound name)
  | .ok (some geomColumn) =>
    if !(isTableIncluded tIncludes tExcludes name) then
      .error (.layerNotIncluded name)
    else
      let sourceSrid : Int :=
        match st.sampleX name with
        | some sx => if 360 < |sx| then 3857 else 4326
        | none => 4326
      .ok
        { Name := name
          Table := name
          GeometryColumn := geomColumn
          SourceSrid := sourceSrid
          Properties := (st.propCols name).map Prod.fst
          PropertyTypes := st.propCols name }

/-- Model of `GenerateTile` (tiles.go): resolve the layer, run the `ST_AsMVT` query,
and normalize the scanned blob — a NULL or zero-length result returns empty
bytes, a result shorter than 10 bytes returns empty bytes, anything else is
returned unchanged. -/
def GenerateTile (st : StoreOracle) (tIncludes tExcludes : List String)
    (layerName : String) (z x y : Int) : Except CatalogErr Payload :=
  match queryLayerMetadata st tIncludes tExcludes layerName with
  | .error e => .error e
  | .ok _ =>
    match st.tileScan layerName z x y with
    | .error _ => .error .tileGenError
    | .ok none => .ok []
    | .ok (some tileData) =>
      if tileData.length == 0 then .ok []
      else if tileData.length < 10 then .ok []
      else .ok tileData

/-- The response classes `handleTile` can produce (`*appError` codes and the
two success shapes). -/
inductive TileHandlerResponse where
  | badRequest
  | notFound
  | internalError
  | noContent
  | okBody (body : Payload)
deriving Repr, DecidableEq

/-- Model of `handleTile` (tile handler in `internal/service`): after the route has
matched (`z`,`x`,`y` are `[0-9]+` segments parsed by `strconv.Atoi`),
validate `0 ≤ z ≤ 30` and `0 ≤ x, y < 2^z` (any violation → 400 before the
store is touched), generate the tile, map the error whose message equals
`"layer not found: " ++ layer` to 404 and every other error to 500, and
serve an empty payload as 204 with no body, a non-empty one as 200. -/
def handleTile (st : StoreOracle) (tIncludes tExcludes : List String)
    (layer : String) (z x y : Int) : TileHandlerResponse :=
  if z < 0 || 30 < z then .badRequest
  else
    let maxCoord : Int := 2 ^ z.toNat
    if x < 0 || maxCoord ≤ x then .badRequest
    else if y < 0 || maxCoord ≤ y then .badRequest
    else
      match GenerateTile st tIncludes tExcludes layer z x y with
      | .error e =>
        if errMessage e == "layer not found: " ++ layer then .notFound
        else .internalError
      | .ok tileData =>
        if tileData.length == 0 then .noContent
        else .okBody tileData

/-! ## Auxiliary definitions used by the statements -/

/-- Cache states reachable by `NewTileCache`/`NewDisabledCache` followed by
any sequence of operations in which every `Set` targets a key that is not
currently present (the discipline under which the counters stay coherent). -/
inductive ReachableFreshSets : TileCache → Prop where
  | init (maxItems maxMemoryMB : Int) (tc : TileCache) :
      NewTileCache maxItems maxMemoryMB = some tc → ReachableFreshSets tc
  | disabled : ReachableFreshSets NewDisabledCache
  | set (tc : TileCache) (ctx : GoContext) (k : String) (v : Payload) :
      ReachableFreshSets tc → lruContains tc.entries k = false →
      ReachableFreshSets (tc.Set ctx k v)
  | get (tc : TileCache) (ctx : GoContext) (k : String) :
      ReachableFreshSets tc → ReachableFreshSets (tc.Get ctx k).2
  | clear (tc : TileCache) :
      ReachableFreshSets tc → ReachableFreshSets tc.Clear
  | clearLayer (tc : TileCache) (l : String) :
      ReachableFreshSets tc → ReachableFreshSets (tc.ClearLayer l).2

/-- The spec's visibility predicate, written from its words: a table is
visible iff the includes list is empty or some entry matches the table's
name case-insensitively, and no excludes entry matches it
case-insensitively. Stated for comparison with `isTableIncluded`. -/
def specVisibleCI (includeList excludeList : List String) (tableName : String) : Bool :=
  (includeList.isEmpty
    || includeList.any (fun e => goToLower e == goToLower tableName))
  && !(excludeList.any (fun e => goToLower e == goToLower tableName))

/-- A store with one visible layer `buildings` whose sampled centroid X is
500 (Mercator range) and whose (0,0,0) tile scans to a 12-byte blob. -/
def stOk : StoreOracle :=
  { geomColQuery := fun n => if n == "buildings" then .ok (some "geom") else .ok none
    sampleX := fun n => if n == "buildings" then some 500 else none
    propCols := fun _ => [("name", "VARCHAR")]
    tileScan := fun n z x y =>
      if n == "buildings" && z == 0 && x == 0 && y == 0 then
        .ok (some [1, 2, 3, 4, 5, 6, 7, 8, 9, 10, 11, 12])
      else .ok none }

/-- The layer record `stOk` resolves for `buildings`. -/
def layerBuildings : Layer :=
  { Name := "buildings"
    Table := "buildings"
    GeometryColumn := "geom"
    SourceSrid := 3857
    Properties := ["name"]
    PropertyTypes := [("name", "VARCHAR")] }

/-- A store containing a table `secret` (it has a geometry column) that the
exclude list filters out. -/
def stC2 : StoreOracle :=
  { geomColQuery := fun n => if n == "secret" then .ok (some "geom") else .ok none
    sampleX := fun _ => none
    propCols := fun _ => []
    tileScan := fun _ _ _ _ => .ok none }

/-- A cache holding one tile of the layer named `roads:1` (whose name is the
layer name `roads` followed by a colon and a suffix). -/
def tcRoads : TileCache :=
  tcFresh.Set ⟨false⟩ (tileCacheKey "roads:1" "2" "3" "4") [7, 7]

/-! ## Claim theorems -/

/-- With in-range coordinates, `handleTile` reduces to the generation and
error-mapping branch. -/
theorem handleTile_valid (st : StoreOracle) (tIncludes tExcludes : List String)
    (layer : String) (z x y : Int)
    (hz : 0 ≤ z) (hz30 : z ≤ 30)
    (hx : 0 ≤ x) (hx2 : x < 2 ^ z.toNat)
    (hy : 0 ≤ y) (hy2 : y < 2 ^ z.toNat) :
    handleTile st tIncludes tExcludes layer z x y =
      match GenerateTile st tIncludes tExcludes layer z x y with
      | .error e =>
        if errMessage e == "layer not found: " ++ layer then .notFound
        else .internalError
      | .ok tileData =>
        if tileData.length == 0 then .noContent
        else .okBody tileData := by
  have c1 : (decide (z < 0) || decide (30 < z)) = false := by
    simp only [Bool.or_eq_false_iff, decide_eq_false_iff_not, not_lt]
    exact ⟨hz, hz30⟩
  have c2 : (decide (x < 0) || decide ((2 : Int) ^ z.toNat ≤ x)) = false := by
    simp only [Bool.or_eq_false_iff, decide_eq_false_iff_not, not_lt, not_le]
    exact ⟨hx, hx2⟩
  have c3 : (decide (y < 0) || decide ((2 : Int) ^ z.toNat ≤ y)) = false := by
    simp only [Bool.or_eq_false_iff, decide_eq_false_iff_not, not_lt, not_le]
    exact ⟨hy, hy2⟩
  unfold handleTile
  simp only [c1, c2, c3, Bool.false_eq_true, if_false]

/-- With out-of-range coordinates, `handleTile` is 400 Bad Request. -/
theorem handleTile_invalid (st : StoreOracle) (tIncludes tExcludes : List String)
    (layer : String) (z x y : Int)
    (h : ¬(0 ≤ z ∧ z ≤ 30 ∧ 0 ≤ x ∧ x < 2 ^ z.toNat ∧ 0 ≤ y ∧ y < 2 ^ z.toNat)) :
    handleTile st tIncludes tExcludes layer z x y = .badRequest := by
  unfold handleTile
  by_cases h1 : z < 0 ∨ 30 < z
  · have c1 : (decide (z < 0) || decide (30 < z)) = true := by
      rcases h1 with h1 | h1 <;> simp [h1]
    simp only [c1, if_true]
  · push_neg at h1
    have c1 : (decide (z < 0) || decide (30 < z)) = false := by
      simp only [Bool.or_eq_false_iff, decide_eq_false_iff_not, not_lt]
      omega
    simp only [c1, Bool.false_eq_true, if_false]
    by_cases h2 : x < 0 ∨ (2 : Int) ^ z.toNat ≤ x
    · have c2 : (decide (x < 0) || decide ((2 : Int) ^ z.toNat ≤ x)) = true := by
        rcases h2 with h2 | h2 <;> simp [h2]
      simp only [c2, if_true]
    · push_neg at h2
      have c2 : (decide (x < 0) || decide ((2 : Int) ^ z.toNat ≤ x)) = false := by
        simp only [Bool.or_eq_false_iff, decide_eq_false_iff_not, not_lt, not_le]
        exact h2
      simp only [c2, Bool.false_eq_true, if_false]
      have h3 : y < 0 ∨ (2 : Int) ^ z.toNat ≤ y := by
        by_contra hc
        push_neg at hc
        exact h ⟨h1.1, h1.2, h2.1, h2.2, hc.1, hc.2⟩
      have c3 : (decide (y < 0) || decide ((2 : Int) ^ z.toNat ≤ y)) = true := by
        rcases h3 with h3 | h3 <;> simp [h3]
      simp only [c3, if_true]

/-- C4: for integer path segments, the tile handler returns 400 Bad Request
exactly when `z ∉ [0, 30]` or `x ∉ [0, 2^z)` or `y ∉ [0, 2^z)`; in
particular the decision is the same for every store oracle, so an invalid
request is rejected without contacting the store. -/
theorem c4_handleTile_badRequest_iff (st : StoreOracle) (tIncludes tExcludes : List String)
    (layer : String) (z x y : Int) :
    handleTile st tIncludes tExcludes layer z x y = .badRequest ↔
      ¬(0 ≤ z ∧ z ≤ 30 ∧ 0 ≤ x ∧ x < 2 ^ z.toNat ∧ 0 ≤ y ∧ y < 2 ^ z.toNat) := by
  constructor
  · intro hbr
    by_contra hv
    obtain ⟨hz, hz30, hx, hx2, hy, hy2⟩ := hv
    rw [handleTile_valid st tIncludes tExcludes layer z x y hz hz30 hx hx2 hy hy2] at hbr
    cases hG : GenerateTile st tIncludes tExcludes layer z x y with
    | error e =>
      rw [hG] at hbr
      by_cases hm : (errMessage e == "layer not found: " ++ layer) = true
      · simp only [hm, if_true] at hbr
        exact TileHandlerResponse.noConfusion hbr
      · simp only [eq_false_of_ne_true hm, Bool.false_eq_true, if_false] at hbr
        exact TileHandlerResponse.noConfusion hbr
    | ok d =>
      rw [hG] at hbr
      by_cases hd : (d.length == 0) = true
      · simp only [hd, if_true] at hbr
        exact TileHandlerResponse.noConfusion hbr
      · simp only [eq_false_of_ne_true hd, Bool.false_eq_true, if_false] at hbr
        exact TileHandlerResponse.noConfusion hbr
  · exact handleTile_invalid st tIncludes tExcludes layer z x y

/-- C9: `TileCache.Set` never consults its context argument, so its result
and cache effect are identical for any two contexts (live or cancelled),
and the same holds for the whole cache middleware; hence the asynchronous
cache fill launched with the request's context completes unchanged after
the client disconnects. -/
theorem c9_set_ignores_context :
    (∀ (tc : TileCache) (c1 c2 : GoContext) (key : String) (data : Payload),
        tc.Set c1 key data = tc.Set c2 key data) ∧
    (∀ (tc : TileCache) (c1 c2 : GoContext) (layer z x y : String)
        (next : Unit → HandlerResult),
        tileCacheMiddleware tc c1 layer z x y next =
          tileCacheMiddleware tc c2 layer z x y next) :=
  ⟨fun _ _ _ _ _ => rfl, fun _ _ _ _ _ _ _ _ => rfl⟩

/-- C1 (bug evidence): storing an empty payload is a no-op (`Set` returns
early when `len(data) == 0`), so after the middleware "caches" a featureless
tile the subsequent `Get` misses, and the second identical request is
answered 204 with `X-Cache: MISS` (regenerating the tile) instead of the
claimed `X-Cache: HIT`. -/
theorem c1_empty_tile_not_cached :
    tcFresh.Set ⟨false⟩ (tileCacheKey "buildings" "12" "1205" "1539") [] = tcFresh ∧
    ((tcFresh.Set ⟨false⟩ (tileCacheKey "buildings" "12" "1205" "1539") []).Get
        ⟨false⟩ (tileCacheKey "buildings" "12" "1205" "1539")).1 = none ∧
    (tileCacheMiddleware tcFresh ⟨false⟩ "buildings" "12" "1205" "1539"
        (fun _ => .ok 204 [])).1 =
      { status := 204, body := [], xCache := some "MISS" } ∧
    (tileCacheMiddleware
        (tileCacheMiddleware tcFresh ⟨false⟩ "buildings" "12" "1205" "1539"
          (fun _ => .ok 204 [])).2
        ⟨false⟩ "buildings" "12" "1205" "1539" (fun _ => .ok 204 [])).1 =
      { status := 204, body := [], xCache := some "MISS" } := by
  refine ⟨rfl, rfl, rfl, rfl⟩

/-- Two messages that append the same suffix to prefixes of different
lengths are different strings. -/
theorem append_msg_ne (p q n : String) (h : p.length ≠ q.length) :
    (p ++ n == q ++ n) = false := by
  apply beq_eq_false_iff_ne.mpr
  intro he
  have hlen := congrArg String.length he
  rw [String.length_append, String.length_append] at hlen
  omega

/-- C2 (counterexample): the table `secret` exists in the store (it has a
geometry column) and is excluded by the filter, yet the tile endpoint
answers 500 Internal Server Error, not the claimed 404 Not Found. -/
theorem c2_counterexample :
    handleTile stC2 [] ["secret"] "secret" 0 0 0 = .internalError ∧
    TileHandlerResponse.internalError ≠ TileHandlerResponse.notFound := by
  exact ⟨rfl, by decide⟩

/-- C2 (amended): an unknown layer maps to 404; a layer that exists but is
rejected by the include/exclude policy maps to 500 (its error message
`"layer not included: ..."` is not the `"layer not found: ..."` message the
router recognizes), so it is distinguishable from an unknown layer; store
errors also map to 500. -/
theorem c2_layer_error_mapping (st : StoreOracle) (tIncludes tExcludes : List String)
    (layer : String) (z x y : Int)
    (hz : 0 ≤ z) (hz30 : z ≤ 30) (hx : 0 ≤ x) (hx2 : x < 2 ^ z.toNat)
    (hy : 0 ≤ y) (hy2 : y < 2 ^ z.toNat) :
    (st.geomColQuery layer = .ok none →
        handleTile st tIncludes tExcludes layer z x y = .notFound) ∧
    (∀ g : String, st.geomColQuery layer = .ok (some g) →
        isTableIncluded tIncludes tExcludes layer = false →
        handleTile st tIncludes tExcludes layer z x y = .internalError) ∧
    (st.geomColQuery layer = .error () →
        handleTile st tIncludes tExcludes layer z x y = .internalError) := by
  rw [handleTile_valid st tIncludes tExcludes layer z x y hz hz30 hx hx2 hy hy2]
  refine ⟨?_, ?_, ?_⟩
  · intro hq
    have hG : GenerateTile st tIncludes tExcludes layer z x y =
        .error (.layerNotFound layer) := by
      unfold GenerateTile queryLayerMetadata
      rw [hq]
    rw [hG]
    simp [errMessage]
  · intro g hq hninc
    have hG : GenerateTile st tIncludes tExcludes layer z x y =
        .error (.layerNotIncluded layer) := by
      unfold GenerateTile queryLayerMetadata
      rw [hq, hninc]
      simp
    rw [hG]
    have hne : (errMessage (.layerNotIncluded layer) == "layer not found: " ++ layer)
        = false := by
      have : ("layer not included: " : String).length ≠
          ("layer not found: " : String).length := by decide
      exact append_msg_ne _ _ _ this
    simp only [hne, Bool.false_eq_true, if_false]
  · intro hq
    have hG : GenerateTile st tIncludes tExcludes layer z x y =
        .error (.queryError layer) := by
      unfold GenerateTile queryLayerMetadata
      rw [hq]
    rw [hG]
    have hne : (errMessage (.queryError layer) == "layer not found: " ++ layer)
        = false := by
      have : ("error querying layer " : String).length ≠
          ("layer not found: " : String).length := by decide
      exact append_msg_ne _ _ _ this
    simp only [hne, Bool.false_eq_true, if_false]

/-- C5: with the layer resolved, a NULL scan, an empty scan, or a scan
shorter than 10 bytes makes `GenerateTile` return empty bytes and the
handler answer 204 No Content with no body; a scan of 10 or more bytes is
returned unchanged and served as 200 with that body. -/
theorem c5_small_tile_normalization (st : StoreOracle) (tIncludes tExcludes : List String)
    (layer : String) (z x y : Int) (L : Layer)
    (hmeta : queryLayerMetadata st tIncludes tExcludes layer = .ok L)
    (hz : 0 ≤ z) (hz30 : z ≤ 30) (hx : 0 ≤ x) (hx2 : x < 2 ^ z.toNat)
    (hy : 0 ≤ y) (hy2 : y < 2 ^ z.toNat) :
    (st.tileScan layer z x y = .ok none →
        GenerateTile st tIncludes tExcludes layer z x y = .ok [] ∧
        handleTile st tIncludes tExcludes layer z x y = .noContent) ∧
    (∀ d : Payload, st.tileScan layer z x y = .ok (some d) → d.length < 10 →
        GenerateTile st tIncludes tExcludes layer z x y = .ok [] ∧
        handleTile st tIncludes tExcludes layer z x y = .noContent) ∧
    (∀ d : Payload, st.tileScan layer z x y = .ok (some d) → 10 ≤ d.length →
        GenerateTile st tIncludes tExcludes layer z x y = .ok d ∧
        handleTile st tIncludes tExcludes layer z x y = .okBody d) := by
  rw [handleTile_valid st tIncludes tExcludes layer z x y hz hz30 hx hx2 hy hy2]
  refine ⟨?_, ?_, ?_⟩
  · intro hscan
    have hG : GenerateTile st tIncludes tExcludes layer z x y = .ok [] := by
      unfold GenerateTile
      rw [hmeta, hscan]
    rw [hG]
    exact ⟨rfl, rfl⟩
  · intro d hscan hlen
    have hG : GenerateTile st tIncludes tExcludes layer z x y = .ok [] := by
      unfold GenerateTile
      rw [hmeta, hscan]
      by_cases h0 : (d.length == 0) = true
      · simp only [h0, if_true]
      · simp only [eq_false_of_ne_true h0, Bool.false_eq_true, if_false]
        rw [if_pos hlen]
    rw [hG]
    exact ⟨rfl, rfl⟩
  · intro d hscan hlen
    have h0 : (d.length == 0) = false := by
      simp only [beq_eq_false_iff_ne, ne_eq]
      omega
    have hG : GenerateTile st tIncludes tExcludes layer z x y = .ok d := by
      unfold GenerateTile
      rw [hmeta, hscan]
      simp only [h0, Bool.false_eq_true, if_false]
      rw [if_neg (not_lt.mpr hlen)]
    rw [hG]
    refine ⟨rfl, ?_⟩
    simp only [h0, Bool.false_eq_true, if_false]

/-- C8: for every layer `queryLayerMetadata` resolves, the source CRS comes
from the one sampled centroid X: with a sample `x`, `SourceSrid` is 3857
exactly when `|x| > 360` and 4326 exactly when `|x| ≤ 360`; with no valid
sample it defaults to 4326. -/
theorem c8_source_srid_inference (st : StoreOracle) (tIncludes tExcludes : List String)
    (name : String) (L : Layer)
    (hL : queryLayerMetadata st tIncludes tExcludes name = .ok L) :
    (st.sampleX name = none → L.SourceSrid = 4326) ∧
    (∀ sx : ℚ, st.sampleX name = some sx →
        ((L.SourceSrid = 3857 ↔ 360 < |sx|) ∧ (L.SourceSrid = 4326 ↔ |sx| ≤ 360))) := by
  unfold queryLayerMetadata at hL
  cases hq : st.geomColQuery name with
  | error e =>
    rw [hq] at hL
    exact absurd hL (by simp)
  | ok og =>
    cases og with
    | none =>
      rw [hq] at hL
      exact absurd hL (by simp)
    | some g =>
      rw [hq] at hL
      by_cases hinc : isTableIncluded tIncludes tExcludes name = true
      · simp only [hinc, Bool.not_true, Bool.false_eq_true, if_false] at hL
        have hrec := Except.ok.inj hL
        refine ⟨?_, ?_⟩
        · intro hs
          rw [← hrec]
          dsimp only
          rw [hs]
        · intro sx hs
          rw [← hrec]
          dsimp only
          rw [hs]
          dsimp only
          by_cases habs : 360 < |sx|
          · rw [if_pos habs]
            refine ⟨⟨fun _ => habs, fun _ => rfl⟩, ?_, ?_⟩
            · intro hcontra
              exact absurd hcontra (by decide)
            · intro hle
              exact absurd habs (not_lt.mpr hle)
          · rw [if_neg habs]
            push_neg at habs
            refine ⟨⟨?_, ?_⟩, fun _ => habs, fun _ => rfl⟩
            · intro hcontra
              exact absurd hcontra (by decide)
            · intro hlt
              exact absurd hlt (not_lt.mpr habs)
      · have hincf : isTableIncluded tIncludes tExcludes name = false :=
          eq_false_of_ne_true hinc
        rw [hincf] at hL
        exact absurd hL (by simp)

/-- Witness for C2's amended mapping: the excluded table `secret` yields
500 while the unknown layer `unknown` yields 404, at concrete inputs. -/
theorem c2_layer_error_mapping_witness :
    stC2.geomColQuery "secret" = .ok (some "geom") ∧
    isTableIncluded [] ["secret"] "secret" = false ∧
    handleTile stC2 [] ["secret"] "secret" 0 0 0 = .internalError ∧
    handleTile stC2 [] ["secret"] "unknown" 0 0 0 = .notFound :=
  ⟨rfl, rfl,
    (c2_layer_error_mapping stC2 [] ["secret"] "secret" 0 0 0 (by decide) (by decide)
        (by decide) (by decide) (by decide) (by decide)).2.1 "geom" rfl rfl,
    (c2_layer_error_mapping stC2 [] ["secret"] "unknown" 0 0 0 (by decide) (by decide)
        (by decide) (by decide) (by decide) (by decide)).1 rfl⟩

/-- Witness for C5: on `stOk`, the (0,0,0) scan is a 12-byte blob that is
served unchanged with status 200, and the (1,1,1) scan is NULL and served
as 204 with empty bytes. -/
theorem c5_small_tile_normalization_witness :
    queryLayerMetadata stOk [] [] "buildings" = .ok layerBuildings ∧
    (GenerateTile stOk [] [] "buildings" 0 0 0 =
        .ok [1, 2, 3, 4, 5, 6, 7, 8, 9, 10, 11, 12] ∧
      handleTile stOk [] [] "buildings" 0 0 0 =
        .okBody [1, 2, 3, 4, 5, 6, 7, 8, 9, 10, 11, 12]) ∧
    (GenerateTile stOk [] [] "buildings" 1 1 1 = .ok [] ∧
      handleTile stOk [] [] "buildings" 1 1 1 = .noContent) :=
  ⟨rfl,
    (c5_small_tile_normalization stOk [] [] "buildings" 0 0 0 layerBuildings rfl
        (by decide) (by decide) (by decide) (by decide) (by decide) (by decide)).2.2
      [1, 2, 3, 4, 5, 6, 7, 8, 9, 10, 11, 12] rfl (by decide),
    (c5_small_tile_normalization stOk [] [] "buildings" 1 1 1 layerBuildings rfl
        (by decide) (by decide) (by decide) (by decide) (by decide) (by decide)).1 rfl⟩

/-- Witness for C8: the sampled centroid X of `buildings` is 500, whose
absolute value exceeds 360, so the inferred source SRID is 3857. -/
theorem c8_source_srid_inference_witness :
    stOk.sampleX "buildings" = some 500 ∧
    (360 : ℚ) < |(500 : ℚ)| ∧
    layerBuildings.SourceSrid = 3857 :=
  ⟨rfl, by norm_num,
    ((c8_source_srid_inference stOk [] [] "buildings" layerBuildings rfl).2 500
        rfl).1.mpr (by norm_num)⟩

/-- A list does not contain an element exactly when the element is not a
member (for lawful `BEq`). -/
theorem contains_eq_false_iff {α : Type} [BEq α] [LawfulBEq α] (l : List α) (a : α) :
    l.contains a = false ↔ a ∉ l := by
  constructor
  · intro h hm
    have ht : l.contains a = true := by
      simp only [List.contains, List.elem_iff]
      exact hm
    rw [ht] at h
    exact Bool.noConfusion h
  · intro h
    cases he : l.contains a
    · rfl
    · refine absurd ?_ h
      simp only [List.contains, List.elem_iff] at he
      exact he

/-- A guard of the form `if 0 < len then b else true` holds exactly when the
list is empty or the body holds. -/
theorem include_guard_iff (l : List String) (b : Bool) :
    (if 0 < l.length then b else true) = true ↔ (l = [] ∨ b = true) := by
  by_cases h : 0 < l.length
  · rw [if_pos h]
    constructor
    · exact Or.inr
    · rintro (rfl | hb)
      · exact absurd h (by simp)
      · exact hb
  · rw [if_neg h]
    have hnil : l = [] := by
      cases l with
      | nil => rfl
      | cons a t => exact absurd (by simp) h
    simp [hnil]

/-- A guard of the form `if 0 < len then b else false` fails exactly when
the list is empty or the body fails. -/
theorem exclude_guard_iff (l : List String) (b : Bool) :
    (if 0 < l.length then b else false) = false ↔ (l = [] ∨ b = false) := by
  by_cases h : 0 < l.length
  · rw [if_pos h]
    constructor
    · exact Or.inr
    · rintro (rfl | hb)
      · exact absurd h (by simp)
      · exact hb
  · rw [if_neg h]
    have hnil : l = [] := by
      cases l with
      | nil => rfl
      | cons a t => exact absurd (by simp) h
    simp [hnil]

/-- Characterization of `isIncluded` (the catalog listing path) over the
lower-cased entry sets produced by `SetIncludeExclude`: the table's schema
and id are lower-cased before lookup, so matching is case-insensitive. -/
theorem isIncluded_spec (includeList excludeList : List String) (schema tblId : String) :
    isIncluded (SetIncludeExclude includeList excludeList).1
        (SetIncludeExclude includeList excludeList).2 ⟨schema, tblId⟩ = true ↔
      ((includeList = [] ∨
          goToLower schema ∈ includeList.map goToLower ∨
          goToLower tblId ∈ includeList.map goToLower) ∧
        goToLower schema ∉ excludeList.map goToLower ∧
        goToLower tblId ∉ excludeList.map goToLower) := by
  unfold isIncluded isMatchSchemaTable SetIncludeExclude
  simp only [Bool.and_eq_true, Bool.not_eq_true', include_guard_iff, exclude_guard_iff,
    Bool.or_eq_true, Bool.or_eq_false_iff, List.map_eq_nil_iff, contains_eq_false_iff,
    List.contains, List.elem_iff]
  constructor
  · rintro ⟨hinc, hexc⟩
    refine ⟨hinc, ?_, ?_⟩
    · rcases hexc with hnil | hx
      · rw [hnil]
        simp
      · exact hx.1
    · rcases hexc with hnil | hx
      · rw [hnil]
        simp
      · exact hx.2
  · rintro ⟨hinc, hs, ht⟩
    exact ⟨hinc, Or.inr ⟨hs, ht⟩⟩

/-- Rows of the "Case insensitive matching" and "Case insensitive
exclusions" cases of the catalog tests (catalog_test.go), evaluated on the
model of `isIncluded`. -/
theorem isIncluded_matches_catalog_tests :
    (isIncluded (SetIncludeExclude ["PUBLIC", "Admin.USERS"] []).1
        (SetIncludeExclude ["PUBLIC", "Admin.USERS"] []).2
        ⟨"public", "public.users"⟩ = true ∧
      isIncluded (SetIncludeExclude ["PUBLIC", "Admin.USERS"] []).1
        (SetIncludeExclude ["PUBLIC", "Admin.USERS"] []).2
        ⟨"Public", "Public.Posts"⟩ = true ∧
      isIncluded (SetIncludeExclude ["PUBLIC", "Admin.USERS"] []).1
        (SetIncludeExclude ["PUBLIC", "Admin.USERS"] []).2
        ⟨"admin", "admin.users"⟩ = true ∧
      isIncluded (SetIncludeExclude ["PUBLIC", "Admin.USERS"] []).1
        (SetIncludeExclude ["PUBLIC", "Admin.USERS"] []).2
        ⟨"Admin", "Admin.LOGS"⟩ = false) ∧
    (isIncluded (SetIncludeExclude [] ["TEMP", "Private.SECRETS"]).1
        (SetIncludeExclude [] ["TEMP", "Private.SECRETS"]).2
        ⟨"public", "public.users"⟩ = true ∧
      isIncluded (SetIncludeExclude [] ["TEMP", "Private.SECRETS"]).1
        (SetIncludeExclude [] ["TEMP", "Private.SECRETS"]).2
        ⟨"temp", "temp.data"⟩ = false ∧
      isIncluded (SetIncludeExclude [] ["TEMP", "Private.SECRETS"]).1
        (SetIncludeExclude [] ["TEMP", "Private.SECRETS"]).2
        ⟨"Temp", "Temp.Cache"⟩ = false ∧
      isIncluded (SetIncludeExclude [] ["TEMP", "Private.SECRETS"]).1
        (SetIncludeExclude [] ["TEMP", "Private.SECRETS"]).2
        ⟨"Private", "Private.SECRETS"⟩ = false) := by
  exact ⟨⟨by decide, by decide, by decide, by decide⟩,
    ⟨by decide, by decide, by decide, by decide⟩⟩

/-- Characterization of `isTableIncluded` (the tile-serving path) over the
lower-cased entry sets produced by `SetIncludeExclude`: the table name is
matched verbatim against the lower-cased entries. -/
theorem isTableIncluded_spec (includeList excludeList : List String) (tableName : String) :
    isTableIncluded (SetIncludeExclude includeList excludeList).1
        (SetIncludeExclude includeList excludeList).2 tableName = true ↔
      ((includeList = [] ∨ tableName ∈ includeList.map goToLower) ∧
        tableName ∉ excludeList.map goToLower) := by
  unfold isTableIncluded SetIncludeExclude
  have hmapnil : (includeList.map goToLower = []) ↔ includeList = [] :=
    List.map_eq_nil_iff
  split_ifs with h1 h2
  · simp only [Bool.and_eq_true, Bool.not_eq_true', decide_eq_true_eq,
      contains_eq_false_iff] at h1
    have hne : includeList ≠ [] := by
      intro hnil
      rw [hnil] at h1
      simp at h1
    simp only [false_iff]
    tauto
  · simp only [Bool.and_eq_true, decide_eq_true_eq, List.contains, List.elem_iff] at h2
    simp only [false_iff]
    tauto
  · simp only [Bool.and_eq_true, Bool.not_eq_true', decide_eq_true_eq,
      contains_eq_false_iff, not_and, not_not, List.contains, List.elem_iff] at h1 h2
    simp only [true_iff]
    constructor
    · by_cases hni : includeList = []
      · exact Or.inl hni
      · refine Or.inr (h1 ?_)
        rw [List.length_pos]
        intro hmn
        exact hni (hmapnil.mp hmn)
    · intro hm
      have hlen : 0 < (excludeList.map goToLower).length :=
        List.length_pos.mpr (List.ne_nil_of_mem hm)
      exact (h2 hlen) hm

/-- C7 (counterexample): with the exclude entry `temp` and no includes, the
spec's case-insensitive visibility says the table `Temp` is hidden, but the
tile-serving lookup `isTableIncluded` (which matches the name verbatim
against the lower-cased entry set) still reports it visible. -/
theorem c7_counterexample :
    specVisibleCI [] ["temp"] "Temp" = false ∧
    isTableIncluded (SetIncludeExclude [] ["temp"]).1
        (SetIncludeExclude [] ["temp"]).2 "Temp" = true := by
  exact ⟨by decide, by decide⟩

/-- C7 (amended): on the catalog listing path (`isIncluded`) visibility is
case-insensitive on both the schema and id fields, exactly as claimed; on
the tile-serving path (`isTableIncluded`) the table name is compared
verbatim against the lower-cased entry sets, so matching there is
case-sensitive in the table's name. -/
theorem c7_include_exclude_semantics :
    (∀ (includeList excludeList : List String) (schema tblId : String),
        isIncluded (SetIncludeExclude includeList excludeList).1
            (SetIncludeExclude includeList excludeList).2 ⟨schema, tblId⟩ = true ↔
          ((includeList = [] ∨
              goToLower schema ∈ includeList.map goToLower ∨
              goToLower tblId ∈ includeList.map goToLower) ∧
            goToLower schema ∉ excludeList.map goToLower ∧
            goToLower tblId ∉ excludeList.map goToLower)) ∧
    (∀ (includeList excludeList : List String) (tableName : String),
        isTableIncluded (SetIncludeExclude includeList excludeList).1
            (SetIncludeExclude includeList excludeList).2 tableName = true ↔
          ((includeList = [] ∨ tableName ∈ includeList.map goToLower) ∧
            tableName ∉ excludeList.map goToLower)) :=
  ⟨isIncluded_spec, isTableIncluded_spec⟩

/-- A list always extends to lists it is an initial segment of. -/
theorem isPrefixOf_append_self {α : Type} [BEq α] [LawfulBEq α] (p t : List α) :
    p.isPrefixOf (p ++ t) = true := by
  induction p with
  | nil => simp [List.isPrefixOf]
  | cons a p ih => simp [List.isPrefixOf, ih]

/-- The tile key of a layer whose name extends `L ++ ":"` starts with the
initial segment `L ++ ":"` that `ClearLayer L` sweeps. -/
theorem tileCacheKey_colon_collision (L sfx z x y : String) :
    goHasPfx (tileCacheKey (L ++ ":" ++ sfx) z x y) (L ++ ":") = true := by
  have hdata : (tileCacheKey (L ++ ":" ++ sfx) z x y).data
      = (L ++ ":").data ++
          (sfx.data ++ ":".data ++ z.data ++ ":".data ++ x.data ++ ":".data ++ y.data) := by
    simp [tileCacheKey, String.data_append, List.append_assoc]
  unfold goHasPfx
  rw [hdata]
  exact isPrefixOf_append_self _ _

/-- C10: for an enabled cache, `ClearLayer L` removes exactly the entries
whose key starts with `L ++ ":"` and returns their count; consequently the
tiles of any layer named `L ++ ":" ++ sfx` (whose cache keys
`"{layer}:{z}:{x}:{y}"` also start with `L ++ ":"`) are removed and counted
by `ClearLayer L` as well. -/
theorem c10_clearLayer_sweep (tc : TileCache) (h : tc.enabled = true)
    (L : String) :
    (tc.ClearLayer L).1 =
        (tc.entries.filter (fun e => goHasPfx e.1 (L ++ ":"))).length ∧
    (tc.ClearLayer L).2.entries =
        tc.entries.filter (fun e => !(goHasPfx e.1 (L ++ ":"))) ∧
    (∀ sfx z x y : String,
        (tc.ClearLayer L).2.entries.filter
            (fun e => e.1 == tileCacheKey (L ++ ":" ++ sfx) z x y) = []) := by
  unfold TileCache.ClearLayer
  simp only [h, Bool.not_true, Bool.false_eq_true, if_false]
  refine ⟨trivial, trivial, ?_⟩
  intro sfx z x y
  rw [List.filter_eq_nil_iff]
  intro e he
  rw [List.mem_filter] at he
  obtain ⟨_, hkeep⟩ := he
  intro heq
  rw [beq_iff_eq] at heq
  rw [heq] at hkeep
  rw [tileCacheKey_colon_collision L sfx z x y] at hkeep
  exact Bool.noConfusion hkeep

/-- Witness for C10: a cache holding the (2,3,4) tile of the layer
`roads:1`; `ClearLayer "roads"` removes that tile and counts it. -/
theorem c10_clearLayer_sweep_witness :
    tcRoads.enabled = true ∧
    (tcRoads.ClearLayer "roads").1 = 1 ∧
    (tcRoads.ClearLayer "roads").2.entries = [] := by
  have h := c10_clearLayer_sweep tcRoads (by decide) "roads"
  refine ⟨by decide, ?_, ?_⟩
  · rw [h.1]
    decide
  · rw [h.2.1]
    decide

/-- Fact: `lruContains` is false exactly when no stored entry has the key. -/
theorem lruContains_eq_false_iff (es : List (String × Payload)) (k : String) :
    lruContains es k = false ↔ ∀ e ∈ es, e.1 ≠ k := by
  unfold lruContains
  rw [List.any_eq_false]
  simp only [beq_iff_eq]

/-- Fact: `entriesBytes` distributes over append. -/
theorem entriesBytes_append (a b : List (String × Payload)) :
    entriesBytes (a ++ b) = entriesBytes a + entriesBytes b := by
  unfold entriesBytes
  rw [List.map_append, List.sum_append]

/-- Fact: `entriesBytes` of a cons. -/
theorem entriesBytes_cons (e : String × Payload) (l : List (String × Payload)) :
    entriesBytes (e :: l) = payloadBytes e.2 + entriesBytes l := by
  unfold entriesBytes
  rw [List.map_cons, List.sum_cons]

/-- Fact: `entriesBytes` is invariant under permutation. -/
theorem entriesBytes_perm (a b : List (String × Payload)) (h : a.Perm b) :
    entriesBytes a = entriesBytes b := by
  unfold entriesBytes
  exact (h.map (fun e => payloadBytes e.2)).sum_eq

/-- Removing the unique entry of a key from a nodup-keyed association list:
the byte total drops by exactly that entry's payload, the length by one,
the remainder keeps nodup keys, and no remaining entry has the key. -/
theorem remove_entry_facts (k : String) (v : Payload) :
    ∀ es : List (String × Payload), (es.map Prod.fst).Nodup →
      lruLookup es k = some v →
      entriesBytes (es.filter (fun e => !(e.1 == k))) + payloadBytes v
          = entriesBytes es ∧
      (es.filter (fun e => !(e.1 == k))).length + 1 = es.length ∧
      ((es.filter (fun e => !(e.1 == k))).map Prod.fst).Nodup ∧
      (∀ e ∈ es.filter (fun e => !(e.1 == k)), e.1 ≠ k) := by
  intro es
  induction es with
  | nil =>
    intro _ hlook
    simp [lruLookup] at hlook
  | cons a rest ih =>
    intro hnd hlook
    rw [List.map_cons, List.nodup_cons] at hnd
    obtain ⟨ha, hndr⟩ := hnd
    by_cases hak : a.1 = k
    · have hbeq : (a.1 == k) = true := beq_iff_eq.mpr hak
      have hfind : List.find? (fun e => e.1 == k) (a :: rest) = some a :=
        List.find?_cons_of_pos _ hbeq
      have hv : v = a.2 := by
        unfold lruLookup at hlook
        rw [hfind] at hlook
        exact (Option.some.inj hlook).symm
      have hknotin : ∀ e ∈ rest, e.1 ≠ k := by
        intro e he hek
        exact ha (by rw [hak, ← hek]; exact List.mem_map_of_mem Prod.fst he)
      have hrest : rest.filter (fun e => !(e.1 == k)) = rest := by
        apply List.filter_eq_self.mpr
        intro e he
        simp only [Bool.not_eq_true', beq_eq_false_iff_ne, ne_eq]
        exact hknotin e he
      rw [List.filter_cons]
      simp only [hbeq, Bool.not_true, Bool.false_eq_true, if_false, hrest]
      refine ⟨?_, ?_, hndr, hknotin⟩
      · rw [entriesBytes_cons, hv]
        ring
      · rw [List.length_cons]
    · have hbeq : (a.1 == k) = false := beq_eq_false_iff_ne.mpr hak
      have hlook2 : lruLookup rest k = some v := by
        unfold lruLookup at hlook ⊢
        rw [List.find?_cons_of_neg _ (by simp [hbeq])] at hlook
        exact hlook
      obtain ⟨ih1, ih2, ih3, ih4⟩ := ih hndr hlook2
      rw [List.filter_cons]
      simp only [hbeq, Bool.not_false, if_true]
      refine ⟨?_, ?_, ?_, ?_⟩
      · rw [entriesBytes_cons, entriesBytes_cons]
        rw [← ih1]
        ring
      · rw [List.length_cons, List.length_cons, ← ih2]
      · rw [List.map_cons, List.nodup_cons]
        refine ⟨?_, ih3⟩
        intro hmem
        apply ha
        rw [List.mem_map] at hmem
        obtain ⟨e, he, hee⟩ := hmem
        have := (List.filter_sublist (l := rest)).subset he
        rw [← hee]
        exact List.mem_map_of_mem Prod.fst this
      · intro e he
        rcases List.mem_cons.mp he with rfl | he2
        · exact hak
        · exact ih4 e he2

/-- The coherence invariant, strengthened with nodup keys, holds in every
state reachable with fresh-key `Set`s. -/
theorem reachableFresh_inv (tc : TileCache) (h : ReachableFreshSets tc) :
    (tc.entries.map Prod.fst).Nodup ∧ cacheConsistent tc := by
  induction h with
  | init maxItems maxMemoryMB tc hnew =>
    unfold NewTileCache at hnew
    by_cases hmi : maxItems ≤ 0
    · rw [if_pos hmi] at hnew
      exact absurd hnew (by simp)
    · rw [if_neg hmi] at hnew
      rw [← Option.some.inj hnew]
      refine ⟨by simp, by simp [cacheConsistent, entriesBytes]⟩
  | disabled =>
    refine ⟨by simp [NewDisabledCache], by simp [cacheConsistent, entriesBytes, NewDisabledCache]⟩
  | set tc ctx k v hr hfresh ih =>
    have ihnd := ih.1
    have ihb := ih.2.1
    have ihs := ih.2.2
    by_cases hen : tc.enabled = true
    · by_cases hv : v = []
      · have : tc.Set ctx k v = tc := by
          unfold TileCache.Set
          rw [hv]
          simp
        rw [this]
        exact ih
      · have hcond : (!tc.enabled || v.length == 0) = false := by
          rw [hen]
          simp only [Bool.not_true, Bool.false_or, beq_eq_false_iff_ne, ne_eq,
            List.length_eq_zero]
          exact hv
        have hkfresh : ∀ e ∈ tc.entries, e.1 ≠ k :=
          (lruContains_eq_false_iff tc.entries k).mp hfresh
        have hknotmap : k ∉ tc.entries.map Prod.fst := by
          intro hm
          rw [List.mem_map] at hm
          obtain ⟨e, he, hek⟩ := hm
          exact hkfresh e he hek
        unfold TileCache.Set
        rw [hcond]
        simp only [Bool.false_eq_true, if_false]
        unfold lruAdd
        rw [hfresh]
        simp only [Bool.false_eq_true, if_false]
        by_cases hlt : tc.maxItems < (tc.entries ++ [(k, v)]).length
        · rw [if_pos hlt]
          cases hes2 : tc.entries ++ [(k, v)] with
          | nil => exact absurd hes2 (by simp)
          | cons old rest =>
            simp only [TileCache.onEvictApply]
            have hnd2 : ((old :: rest).map Prod.fst).Nodup := by
              rw [← hes2, List.map_append]
              rw [List.nodup_append]
              refine ⟨ihnd, List.nodup_singleton _, ?_⟩
              intro a hma hmb
              simp only [List.map_cons, List.map_nil, List.mem_singleton] at hmb
              rw [hmb] at hma
              exact hknotmap hma
            have hbytes2 : entriesBytes (old :: rest) = entriesBytes tc.entries + payloadBytes v := by
              rw [← hes2, entriesBytes_append]
              simp [entriesBytes, payloadBytes]
            have hlen2 : (old :: rest).length = tc.entries.length + 1 := by
              rw [← hes2]
              simp
            constructor
            · rw [List.map_cons, List.nodup_cons] at hnd2
              exact hnd2.2
            · constructor
              · show tc.currentBytes - payloadBytes old.2 + payloadBytes v = entriesBytes rest
                have : entriesBytes (old :: rest) = payloadBytes old.2 + entriesBytes rest :=
                  entriesBytes_cons old rest
                rw [this] at hbytes2
                rw [ihb]
                linarith
              · show tc.currentSize - 1 + 1 = (rest.length : Int)
                have : (old :: rest).length = rest.length + 1 := by simp
                rw [this] at hlen2
                rw [ihs]
                have : rest.length = tc.entries.length := by omega
                rw [this]
                ring
        · rw [if_neg hlt]
          simp only [TileCache.onEvictApply]
          constructor
          · rw [List.map_append]
            rw [List.nodup_append]
            refine ⟨ihnd, by simp, ?_⟩
            intro a hma hmb
            simp only [List.map_cons, List.map_nil, List.mem_singleton] at hmb
            rw [hmb] at hma
            exact hknotmap hma
          · constructor
            · show tc.currentBytes + payloadBytes v = entriesBytes (tc.entries ++ [(k, v)])
              rw [entriesBytes_append, ihb]
              simp [entriesBytes, payloadBytes]
            · show tc.currentSize + 1 = ((tc.entries ++ [(k, v)]).length : Int)
              rw [List.length_append, ihs]
              simp
    · have : tc.Set ctx k v = tc := by
        unfold TileCache.Set
        rw [eq_false_of_ne_true hen]
        simp
      rw [this]
      exact ih
  | get tc ctx k hr ih =>
    have ihnd := ih.1
    have ihb := ih.2.1
    have ihs := ih.2.2
    unfold TileCache.Get
    by_cases hen : tc.enabled = true
    · rw [hen]
      simp only [Bool.not_true, Bool.false_eq_true, if_false]
      unfold lruGet
      cases hlook : lruLookup tc.entries k with
      | none =>
        simp only
        exact ⟨ihnd, ihb, ihs⟩
      | some v =>
        simp only
        obtain ⟨hb, hl, hn, hk⟩ := remove_entry_facts k v tc.entries ihnd hlook
        constructor
        · rw [List.map_append, List.nodup_append]
          refine ⟨hn, by simp, ?_⟩
          intro a hma hmb
          simp only [List.map_cons, List.map_nil, List.mem_singleton] at hmb
          rw [List.mem_map] at hma
          obtain ⟨e, he, hee⟩ := hma
          exact hk e he (by rw [hee, hmb])
        · constructor
          · show tc.currentBytes = entriesBytes (tc.entries.filter (fun e => !(e.1 == k)) ++ [(k, v)])
            rw [entriesBytes_append, ihb]
            have : entriesBytes [(k, v)] = payloadBytes v := by
              simp [entriesBytes]
            rw [this]
            linarith
          · show tc.currentSize = (((tc.entries.filter (fun e => !(e.1 == k))) ++ [(k, v)]).length : Int)
            rw [List.length_append, ihs]
            simp only [List.length_cons, List.length_nil]
            omega
    · rw [eq_false_of_ne_true hen]
      simp only [Bool.not_false, if_true]
      exact ⟨ihnd, ihb, ihs⟩
  | clear tc hr ih =>
    unfold TileCache.Clear
    by_cases hen : tc.enabled = true
    · rw [hen]
      simp only [Bool.not_true, Bool.false_eq_true, if_false]
      exact ⟨by simp, by simp [cacheConsistent, entriesBytes], by simp⟩
    · rw [eq_false_of_ne_true hen]
      simp only [Bool.not_false, if_true]
      exact ih
  | clearLayer tc l hr ih =>
    have ihnd := ih.1
    have ihb := ih.2.1
    have ihs := ih.2.2
    unfold TileCache.ClearLayer
    by_cases hen : tc.enabled = true
    · rw [hen]
      simp only [Bool.not_true, Bool.false_eq_true, if_false]
      have hperm :
          (tc.entries.filter (fun e => goHasPfx e.1 (l ++ ":"))) ++
            (tc.entries.filter (fun e => !(goHasPfx e.1 (l ++ ":")))) |>.Perm tc.entries :=
        List.filter_append_perm _ tc.entries
      have hbsplit :
          entriesBytes (tc.entries.filter (fun e => goHasPfx e.1 (l ++ ":"))) +
            entriesBytes (tc.entries.filter (fun e => !(goHasPfx e.1 (l ++ ":")))) =
          entriesBytes tc.entries := by
        rw [← entriesBytes_append]
        exact entriesBytes_perm _ _ hperm
      have hlsplit :
          (tc.entries.filter (fun e => goHasPfx e.1 (l ++ ":"))).length +
            (tc.entries.filter (fun e => !(goHasPfx e.1 (l ++ ":")))).length =
          tc.entries.length := by
        have := hperm.length_eq
        rw [List.length_append] at this
        exact this
      refine ⟨?_, ?_, ?_⟩
      · exact ((List.filter_sublist _).map Prod.fst).nodup ihnd
      · show tc.currentBytes - entriesBytes _ = entriesBytes _
        rw [ihb]
        linarith
      · show tc.currentSize - _ = _
        rw [ihs]
        push_cast
        omega
    · rw [eq_false_of_ne_true hen]
      simp only [Bool.not_false, if_true]
      exact ⟨ihnd, ihb, ihs⟩

/-- C3 (counterexample): a second `Set` on a key already present updates the
LRU entry in place without firing the eviction callback, while the counters
are still incremented, so after `Set "a:0:0:0" [1]; Set "a:0:0:0" [2, 3]`
the cache holds one entry but `currentSize` is 2 (and `currentBytes` counts
both payloads), breaking the claimed invariant. -/
theorem c3_counterexample :
    (applyOps tcFresh
        [.set ⟨false⟩ "a:0:0:0" [1], .set ⟨false⟩ "a:0:0:0" [2, 3]]).currentSize = 2 ∧
    (applyOps tcFresh
        [.set ⟨false⟩ "a:0:0:0" [1], .set ⟨false⟩ "a:0:0:0" [2, 3]]).entries.length = 1 ∧
    ¬ cacheConsistent (applyOps tcFresh
        [.set ⟨false⟩ "a:0:0:0" [1], .set ⟨false⟩ "a:0:0:0" [2, 3]]) := by
  refine ⟨by decide, by decide, by decide⟩

/-- C3 (amended): in every cache state reachable by sequences of `Set`,
`Get`, `Clear` and `ClearLayer` in which each `Set` targets a key not
currently present, the sum of the stored payload lengths equals
`currentBytes` and the number of stored entries equals `currentSize`; a
`Set` on a present key breaks the invariant (see the counterexample). -/
theorem c3_counters_coherent_fresh (tc : TileCache) (h : ReachableFreshSets tc) :
    cacheConsistent tc :=
  (reachableFresh_inv tc h).2

/-- Witness for C3 (amended), at a state reached by an actual `Set`. -/
theorem c3_counters_coherent_fresh_witness :
    ReachableFreshSets (tcFresh.Set ⟨false⟩ "a:0:0:0" [9, 9]) ∧
    cacheConsistent (tcFresh.Set ⟨false⟩ "a:0:0:0" [9, 9]) :=
  have h0 : ReachableFreshSets tcFresh :=
    ReachableFreshSets.init 10 0 tcFresh (by decide)
  have h1 : ReachableFreshSets (tcFresh.Set ⟨false⟩ "a:0:0:0" [9, 9]) :=
    ReachableFreshSets.set tcFresh ⟨false⟩ "a:0:0:0" [9, 9] h0 (by decide)
  ⟨h1, c3_counters_coherent_fresh (tcFresh.Set ⟨false⟩ "a:0:0:0" [9, 9]) h1⟩

/-- Effect of `Set` on a fresh key on an enabled cache with room: the entry is
appended at the most-recently-used end and the counters grow. -/
theorem Set_fresh_no_evict (tc : TileCache) (ctx : GoContext) (k : String) (v : Payload)
    (hen : tc.enabled = true) (hv : v ≠ []) (hfresh : lruContains tc.entries k = false)
    (hroom : tc.entries.length + 1 ≤ tc.maxItems) :
    tc.Set ctx k v =
      { tc with
        entries := tc.entries ++ [(k, v)]
        currentBytes := tc.currentBytes + payloadBytes v
        currentSize := tc.currentSize + 1 } := by
  have hcond : (!tc.enabled || v.length == 0) = false := by
    rw [hen]
    simp only [Bool.not_true, Bool.false_or, beq_eq_false_iff_ne, ne_eq,
      List.length_eq_zero]
    exact hv
  unfold TileCache.Set
  rw [hcond]
  simp only [Bool.false_eq_true, if_false]
  unfold lruAdd
  rw [hfresh]
  simp only [Bool.false_eq_true, if_false]
  rw [if_neg (by simp only [List.length_append, List.length_cons, List.length_nil]; omega)]
  simp [TileCache.onEvictApply]

/-- Effect of `Set` on a fresh key on an enabled cache at capacity: the oldest entry
is evicted (the eviction callback fires on it) and the new entry appended. -/
theorem Set_fresh_evict (tc : TileCache) (ctx : GoContext) (k : String) (v : Payload)
    (e0 : String × Payload) (rest0 : List (String × Payload))
    (hen : tc.enabled = true) (hv : v ≠ []) (hfresh : lruContains tc.entries k = false)
    (hes : tc.entries = e0 :: rest0)
    (hfull : tc.maxItems < tc.entries.length + 1) :
    tc.Set ctx k v =
      { tc with
        entries := rest0 ++ [(k, v)]
        evictions := tc.evictions + 1
        currentSize := tc.currentSize - 1 + 1
        currentBytes := tc.currentBytes - payloadBytes e0.2 + payloadBytes v } := by
  have hcond : (!tc.enabled || v.length == 0) = false := by
    rw [hen]
    simp only [Bool.not_true, Bool.false_or, beq_eq_false_iff_ne, ne_eq,
      List.length_eq_zero]
    exact hv
  unfold TileCache.Set
  rw [hcond]
  simp only [Bool.false_eq_true, if_false]
  unfold lruAdd
  rw [hfresh]
  simp only [Bool.false_eq_true, if_false]
  rw [hes]
  rw [if_pos (by
    simp only [List.cons_append, List.length_append, List.length_cons, List.length_nil]
    rw [hes] at hfull
    simp only [List.length_cons] at hfull
    omega)]
  simp only [List.cons_append]
  simp [TileCache.onEvictApply]

/-- Folding fresh-key nonempty `Set`s over an enabled cache keeps exactly
the window of the `maxItems` most recent insertions and counts one eviction
per insertion beyond capacity. -/
theorem setFold_window (m : ℕ) (ctx : GoContext) :
    ∀ (rest done : List (String × Payload)) (tc : TileCache),
      1 ≤ m →
      tc.enabled = true →
      tc.maxItems = m →
      ((done ++ rest).map Prod.fst).Nodup →
      (∀ e ∈ rest, e.2 ≠ ([] : Payload)) →
      tc.entries = done.drop (done.length - m) →
      tc.evictions = ((done.length - m : ℕ) : Int) →
      (rest.foldl (fun a e => a.Set ctx e.1 e.2) tc).entries
          = (done ++ rest).drop ((done ++ rest).length - m) ∧
      (rest.foldl (fun a e => a.Set ctx e.1 e.2) tc).evictions
          = (((done ++ rest).length - m : ℕ) : Int) := by
  intro rest
  induction rest with
  | nil =>
    intro done tc hm hen hmax hnd hne hent hev
    simp only [List.foldl_nil, List.append_nil]
    exact ⟨hent, hev⟩
  | cons e rest2 ih =>
    intro done tc hm hen hmax hnd hne hent hev
    simp only [List.foldl_cons]
    have hefresh : lruContains tc.entries e.1 = false := by
      rw [lruContains_eq_false_iff]
      intro q hq hqe
      have hqdone : q ∈ done := by
        rw [hent] at hq
        exact List.drop_subset _ _ hq
      have h1 : e.1 ∈ done.map Prod.fst := by
        rw [← hqe]
        exact List.mem_map_of_mem Prod.fst hqdone
      have hnd2 := hnd
      rw [List.map_append, List.nodup_append] at hnd2
      exact hnd2.2.2 h1 (by simp)
    have hnev : e.2 ≠ ([] : Payload) := hne e (by simp)
    by_cases hroom : done.length < m
    · have hdrop0 : done.length - m = 0 := by omega
      have hent2 : tc.entries = done := by rw [hent, hdrop0, List.drop_zero]
      have hstep := Set_fresh_no_evict tc ctx e.1 e.2 hen hnev hefresh
        (by rw [hent2, hmax]; omega)
      obtain ⟨ha, hb⟩ := ih (done ++ [e]) (tc.Set ctx e.1 e.2) hm
        (by rw [hstep]; exact hen)
        (by rw [hstep]; exact hmax)
        (by rw [List.append_assoc]; exact hnd)
        (fun q hq => hne q (List.mem_cons_of_mem e hq))
        (by
          rw [hstep]
          show tc.entries ++ [(e.1, e.2)] = (done ++ [e]).drop ((done ++ [e]).length - m)
          rw [hent2]
          have hlen2 : (done ++ [e]).length = done.length + 1 := by simp
          rw [hlen2]
          have h0 : done.length + 1 - m = 0 := by omega
          rw [h0, List.drop_zero])
        (by
          rw [hstep]
          show tc.evictions = (((done ++ [e]).length - m : ℕ) : Int)
          rw [hev]
          have hlen2 : (done ++ [e]).length = done.length + 1 := by simp
          rw [hlen2]
          congr 1
          omega)
      rw [List.append_assoc] at ha hb
      exact ⟨ha, hb⟩
    · push_neg at hroom
      have hlendrop : (done.drop (done.length - m)).length = m := by
        rw [List.length_drop]
        omega
      obtain ⟨e0, rest0, hcons⟩ :
          ∃ e0 rest0, done.drop (done.length - m) = e0 :: rest0 := by
        cases hd : done.drop (done.length - m) with
        | nil =>
          rw [hd] at hlendrop
          simp at hlendrop
          omega
        | cons a b => exact ⟨a, b, rfl⟩
      have hstep := Set_fresh_evict tc ctx e.1 e.2 e0 rest0 hen hnev hefresh
        (by rw [hent, hcons])
        (by
          have hrl : rest0.length + 1 = m := by
            rw [← hlendrop, hcons]
            simp
          rw [hmax, hent, hcons]
          simp only [List.length_cons]
          omega)
      have hrest0 : rest0 = done.drop (done.length - m + 1) := by
        have ht := List.tail_drop done (done.length - m)
        rw [hcons] at ht
        simpa using ht
      obtain ⟨ha, hb⟩ := ih (done ++ [e]) (tc.Set ctx e.1 e.2) hm
        (by rw [hstep]; exact hen)
        (by rw [hstep]; exact hmax)
        (by rw [List.append_assoc]; exact hnd)
        (fun q hq => hne q (List.mem_cons_of_mem e hq))
        (by
          rw [hstep]
          show rest0 ++ [(e.1, e.2)] = (done ++ [e]).drop ((done ++ [e]).length - m)
          rw [hrest0]
          have hlen2 : (done ++ [e]).length = done.length + 1 := by simp
          rw [hlen2]
          rw [List.drop_append_eq_append_drop]
          have h1 : done.length + 1 - m - done.length = 0 := by omega
          have h2 : done.length + 1 - m = done.length - m + 1 := by omega
          rw [h1, h2, List.drop_zero])
        (by
          rw [hstep]
          show tc.evictions + 1 = (((done ++ [e]).length - m : ℕ) : Int)
          rw [hev]
          have hlen2 : (done ++ [e]).length = done.length + 1 := by simp
          rw [hlen2]
          omega)
      rw [List.append_assoc] at ha hb
      exact ⟨ha, hb⟩

/-- C6 (counterexample): `Set` with an empty payload is a no-op, so two
`Set`s with distinct keys on a `maxItems = 1` cache where the first payload
is empty leave the eviction counter at 0, not at the claimed N − M = 1. -/
theorem c6_counterexample :
    (applyOps ((NewTileCache 1 0).getD NewDisabledCache)
        [.set ⟨false⟩ "a:0:0:0" [], .set ⟨false⟩ "b:0:0:0" [5]]).evictions = 0 ∧
    (0 : Int) ≠ ((2 - 1 : ℕ) : Int) := by
  exact ⟨by decide, by decide⟩

/-- C6 (amended): after N `Set` operations with N distinct keys and
non-empty payloads on a cache created with `maxItems = M ≤ N`, exactly
N − M evictions have been counted and exactly M entries remain, namely the
M most recently inserted key/payload pairs in insertion order. -/
theorem c6_lru_eviction_and_window (inserts : List (String × Payload)) (m : ℕ)
    (mm : Int) (ctx : GoContext) (tc0 : TileCache)
    (hnew : NewTileCache (m : Int) mm = some tc0)
    (hnodup : (inserts.map Prod.fst).Nodup)
    (hne : ∀ e ∈ inserts, e.2 ≠ ([] : Payload))
    (hm : m ≤ inserts.length) :
    (inserts.foldl (fun a e => a.Set ctx e.1 e.2) tc0).evictions
        = ((inserts.length - m : ℕ) : Int) ∧
    (inserts.foldl (fun a e => a.Set ctx e.1 e.2) tc0).entries
        = inserts.drop (inserts.length - m) ∧
    (inserts.foldl (fun a e => a.Set ctx e.1 e.2) tc0).entries.length = m := by
  unfold NewTileCache at hnew
  by_cases hmi : (m : Int) ≤ 0
  · rw [if_pos hmi] at hnew
    exact absurd hnew (by simp)
  · rw [if_neg hmi] at hnew
    have htc0 := (Option.some.inj hnew).symm
    have hm1 : 1 ≤ m := by omega
    obtain ⟨ha, hb⟩ := setFold_window m ctx inserts [] tc0 hm1
      (by rw [htc0])
      (by rw [htc0]; simp)
      (by exact hnodup)
      hne
      (by rw [htc0]; simp)
      (by rw [htc0]; simp)
    have ha2 : (inserts.foldl (fun a e => a.Set ctx e.1 e.2) tc0).entries
        = inserts.drop (inserts.length - m) := by simpa using ha
    have hb2 : (inserts.foldl (fun a e => a.Set ctx e.1 e.2) tc0).evictions
        = ((inserts.length - m : ℕ) : Int) := by simpa using hb
    refine ⟨hb2, ha2, ?_⟩
    rw [ha2, List.length_drop]
    omega

/-- Witness for C6 (amended): two distinct non-empty inserts on a
`maxItems = 1` cache leave one eviction and the single most recent entry. -/
theorem c6_lru_eviction_and_window_witness :
    ([(("a:0:0:0" : String), ([1] : Payload)), ("b:0:0:0", [2, 2])].foldl
        (fun a e => a.Set ⟨false⟩ e.1 e.2)
        ((NewTileCache 1 0).getD NewDisabledCache)).evictions = 1 ∧
    ([(("a:0:0:0" : String), ([1] : Payload)), ("b:0:0:0", [2, 2])].foldl
        (fun a e => a.Set ⟨false⟩ e.1 e.2)
        ((NewTileCache 1 0).getD NewDisabledCache)).entries = [("b:0:0:0", [2, 2])] ∧
    ([(("a:0:0:0" : String), ([1] : Payload)), ("b:0:0:0", [2, 2])].foldl
        (fun a e => a.Set ⟨false⟩ e.1 e.2)
        ((NewTileCache 1 0).getD NewDisabledCache)).entries.length = 1 := by
  have h := c6_lru_eviction_and_window
      [("a:0:0:0", [1]), ("b:0:0:0", [2, 2])] 1 0 ⟨false⟩
      ((NewTileCache 1 0).getD NewDisabledCache)
      (by decide) (by decide) (by decide) (by decide)
  refine ⟨?_, ?_, ?_⟩
  · rw [h.1]
    decide
  · rw [h.2.1]
    decide
  · exact h.2.2
